import Mathlib

/-!
Verification development for the aws-message-publisher library.

The definitions below are a shallow embedding of the TypeScript source:

* the error taxonomy (src/errors: PublisherError subclasses ConfigurationError,
  SerializationError, PublishError, plus arbitrary other JavaScript errors);
* the attribute data model (src/types/message-attributes.ts);
* the enrichment pipeline (src/pipeline/enrichment-pipeline.ts);
* the JSON serializer (JsonMessageSerializer);
* the SQS publisher (SqsMessagePublisher: resolveQueueUrl, resolveContext,
  applyConfiguration, enrichMessage, addContentTypeAttribute,
  convertToSqsAttributes, publish, publishBatch);
* the SNS topic resolver (SnsMessagePublisher.resolveTopicArn) and the SNS
  batch entry point, whose chunked aggregation loop is textually identical to
  the SQS one and is therefore embedded once as batchDispatch.

Asynchronous fallible calls are embedded as Except-valued functions; the
mutable publisher instance state (configuration, enrichment pipeline, cached
resolved destination) is threaded explicitly; observable backend interactions
(name-resolution calls, send calls) are recorded in the returned outcome so
that call-count properties can be stated.
-/

/-- Embedding of the error classes of src/errors.  The three domain classes
carry their message and optional wrapped cause; jsErr stands for any other
JavaScript Error (AWS SDK failures, enricher failures, and so on), of which
only the message is observable to the code under study. -/
inductive PubError : Type where
  | configurationErr (msg : String) (cause : Option PubError)
  | serializationErr (msg : String) (cause : Option PubError)
  | publishFailure (msg : String) (destination : String) (cause : Option PubError)
  | jsErr (msg : String)

/-- The message carried by an error (Error.prototype.message). -/
def PubError.message : PubError → String
  | .configurationErr m _ => m
  | .serializationErr m _ => m
  | .publishFailure m _ _ => m
  | .jsErr m => m

/-- instanceof ConfigurationError. -/
def PubError.isConfigurationError : PubError → Bool
  | .configurationErr _ _ => true
  | _ => false

/-- instanceof SerializationError. -/
def PubError.isSerializationError : PubError → Bool
  | .serializationErr _ _ => true
  | _ => false

/-- instanceof PublishError. -/
def PubError.isPublishError : PubError → Bool
  | .publishFailure _ _ _ => true
  | _ => false

/-- The dataType discriminator of a message attribute value. -/
inductive AttrDataType : Type where
  | string
  | number
  | binary
deriving DecidableEq, Repr

/-- The runtime value of a message attribute (string | number | Buffer). -/
inductive PrimVal : Type where
  | pstr (s : String)
  | pnum (n : Int)
  | pbin (bytes : List Nat)
deriving DecidableEq, Repr

/-- JavaScript String(value) coercion, as far as the library exercises it.
For a Buffer the code only coerces it when the attribute is mistagged
(dataType String with binary payload), which the data-model invariant rules
out; any total choice of representation is equivalent for the claims. -/
def PrimVal.jsString : PrimVal → String
  | .pstr s => s
  | .pnum n => toString n
  | .pbin bytes => String.intercalate ("," ) (bytes.map toString)

/-- MessageAttributeValue of src/types/message-attributes.ts. -/
structure MessageAttributeValue where
  dataType : AttrDataType
  value : PrimVal
deriving DecidableEq, Repr

/-- MessageAttributes: a JavaScript record from attribute name to value,
embedded pointwise as a lookup function. -/
abbrev MessageAttributes : Type := String → Option MessageAttributeValue

/-- The empty attribute record. -/
def emptyAttrs : MessageAttributes := fun _ => none

/-- Record spread / Object.assign: entries of extra win over entries of base
on identical keys. -/
def mergeAttrs (base extra : MessageAttributes) : MessageAttributes :=
  fun k => (extra k).elim (base k) (fun v => some v)

/-- PublishContext: ambient metadata, embedded as an opaque lookup record. -/
abbrev PublishContext : Type := String → Option String

/-- The empty context returned when no context resolver is configured. -/
def emptyContext : PublishContext := fun _ => none

/-- MessageEnricher interface: an async, fallible enrich call and an optional
getPriority method. -/
structure MessageEnricher (M : Type) where
  enrich : M → PublishContext → Except PubError MessageAttributes
  getPriority : Option Int := none

/-- a.getPriority?.() ?? 100 -/
def MessageEnricher.effectivePriority {M : Type} (e : MessageEnricher M) : Int :=
  e.getPriority.getD 100

/-- One step of the stable sort performed by the EnrichmentPipeline
constructor: insert e into an already sorted list, after every element of
strictly smaller priority and before the first element of priority greater
than or equal to it, which is exactly where the (guaranteed stable)
JavaScript Array.prototype.sort with comparator priorityA - priorityB
places it. -/
def insertSorted {M : Type} (e : MessageEnricher M) :
    List (MessageEnricher M) → List (MessageEnricher M)
  | [] => [e]
  | x :: xs =>
    if x.effectivePriority < e.effectivePriority then x :: insertSorted e xs
    else e :: x :: xs

/-- The stable ascending sort by priority of the EnrichmentPipeline
constructor ([...enrichers].sort((a, b) => pa - pb)). -/
def sortEnrichers {M : Type} : List (MessageEnricher M) → List (MessageEnricher M)
  | [] => []
  | e :: rest => insertSorted e (sortEnrichers rest)

/-- EnrichmentPipeline instance state: the sorted enricher list computed in
the constructor. -/
structure EnrichmentPipeline (M : Type) where
  sortedEnrichers : List (MessageEnricher M)

/-- new EnrichmentPipeline(enrichers). -/
def EnrichmentPipeline.create {M : Type} (enrichers : List (MessageEnricher M)) :
    EnrichmentPipeline M :=
  ⟨sortEnrichers enrichers⟩

/-- getEnrichers(): a copy of the sorted enricher list. -/
def EnrichmentPipeline.getEnrichers {M : Type} (p : EnrichmentPipeline M) :
    List (MessageEnricher M) :=
  p.sortedEnrichers

/-- The sequential fold of EnrichmentPipeline.enrich: each enricher is
invoked in sorted order; on success its attributes are merged over the
accumulator (Object.assign), on failure the error is logged to the console
and swallowed, and the loop continues. -/
def enrichFold {M : Type} (msg : M) (ctx : PublishContext) :
    List (MessageEnricher M) → MessageAttributes → MessageAttributes
  | [], acc => acc
  | e :: rest, acc =>
    match e.enrich msg ctx with
    | .ok attrs => enrichFold msg ctx rest (mergeAttrs acc attrs)
    | .error _ => enrichFold msg ctx rest acc

/-- EnrichmentPipeline.enrich.  The TypeScript method returns a promise that
can in principle reject, hence the Except-valued embedding; the body catches
every per-enricher failure, so the only reachable outcome is ok. -/
def EnrichmentPipeline.enrich {M : Type} (p : EnrichmentPipeline M) (msg : M)
    (ctx : PublishContext) : Except PubError MessageAttributes :=
  .ok (enrichFold msg ctx p.sortedEnrichers emptyAttrs)

/-- SerializedMessage: the body and content type produced by a serializer. -/
structure SerializedMessage where
  body : String
  contentType : String
deriving DecidableEq, Repr

/-- MessageSerializer interface. -/
structure MessageSerializer (M : Type) where
  serialize : M → Except PubError SerializedMessage
  getContentType : String

/-- JsonMessageSerializer, parameterized by the outcome of JSON.stringify
(which throws on circular structures): a stringify failure is wrapped in a
SerializationError, success is paired with the application/json content
type. -/
def jsonMessageSerializer {M : Type} (stringify : M → Except PubError String) :
    MessageSerializer M where
  serialize := fun m =>
    match stringify m with
    | .ok body => .ok ⟨body, "application/json"⟩
    | .error e => .error (.serializationErr ("Failed to serialize message to JSON") (some e))
  getContentType := "application/json"

/-- JavaScript String.prototype.startsWith. -/
def jsStartsWith (s pre : String) : Bool :=
  pre.data.isPrefixOf s.data

/-- The wire-format attribute built by convertToSqsAttributes /
convertToSnsAttributes: DataType, StringValue, BinaryValue. -/
structure SqsWireAttribute where
  wireDataType : AttrDataType
  stringValue : Option String
  binaryValue : Option PrimVal
deriving DecidableEq, Repr

/-- Conversion of one internal attribute value to the wire format:
StringValue is set for String attributes, BinaryValue for Binary ones, and
the trailing if-block of the source re-sets StringValue for Number ones. -/
def convertAttr (v : MessageAttributeValue) : SqsWireAttribute where
  wireDataType := v.dataType
  stringValue :=
    match v.dataType with
    | .string => some v.value.jsString
    | .number => some v.value.jsString
    | .binary => none
  binaryValue :=
    match v.dataType with
    | .binary => some v.value
    | _ => none

/-- convertToSqsAttributes, embedded pointwise: the source iterates the
entries of the record, producing exactly the record whose lookup at each key
is the converted lookup of the input. -/
def convertToSqsAttributes (attributes : MessageAttributes) :
    String → Option SqsWireAttribute :=
  fun k => (attributes k).map convertAttr

/-- addContentTypeAttribute: spread the existing attributes and then write
the synthetic contentType attribute, overwriting any identically named key. -/
def addContentTypeAttribute (attributes : MessageAttributes) (contentType : String) :
    MessageAttributes :=
  fun k =>
    if k = "contentType" then some ⟨AttrDataType.string, PrimVal.pstr contentType⟩
    else attributes k

/-- SqsPublisherConfig: destination plus collaborators.  The configuration
builder guarantees a serializer (defaulting to JSON), which the publisher
dereferences with a non-null assertion, so the field is total here.  The
context resolver is an async nullary call embedded as its outcome. -/
structure SqsPublisherConfig (M : Type) where
  destination : String
  serializer : MessageSerializer M
  enrichers : List (MessageEnricher M) := []
  contextResolver : Option (Except PubError PublishContext) := none

/-- Mutable instance state of SqsMessagePublisher. -/
structure SqsPublisherState (M : Type) where
  config : Option (SqsPublisherConfig M)
  enrichmentPipeline : Option (EnrichmentPipeline M)
  resolvedQueueUrl : Option String

/-- A publisher on which no configuration has been applied. -/
def initialSqsState (M : Type) : SqsPublisherState M :=
  ⟨none, none, none⟩

/-- applyConfiguration: store the configuration, build a fresh enrichment
pipeline only when the new configuration carries a nonempty enricher list
(otherwise the previous pipeline field is left untouched, as in the source),
and reset the resolved queue URL. -/
def applyConfiguration {M : Type} (st : SqsPublisherState M)
    (cfg : SqsPublisherConfig M) : SqsPublisherState M where
  config := some cfg
  enrichmentPipeline :=
    if cfg.enrichers.length > 0 then some (EnrichmentPipeline.create cfg.enrichers)
    else st.enrichmentPipeline
  resolvedQueueUrl := none

/-- The SendMessageCommand input assembled by publish. -/
structure SqsSendCmd where
  queueUrl : String
  messageBody : String
  messageAttributes : String → Option SqsWireAttribute
  deduplicationId : Option String
  groupId : Option String
  delaySeconds : Option Int

/-- The response of a successful SendMessageCommand. -/
structure SqsSendResponse where
  messageId : String
  sequenceNumber : Option String
deriving DecidableEq, Repr

/-- The SQS client boundary: the GetQueueUrlCommand round trip (whose ok
payload is the possibly absent response.QueueUrl), the SendMessageCommand
round trip, and the clock read by new Date(). -/
structure SqsBackend (M : Type) where
  getQueueUrlResp : String → Except PubError (Option String)
  sendMessageResp : SqsSendCmd → Except PubError SqsSendResponse
  now : Nat

/-- Outcome of resolveQueueUrl: the returned or thrown value, the updated
cache field, and how many GetQueueUrlCommand calls were issued. -/
structure ResolveOutcome where
  result : Except PubError String
  cache : Option String
  resolveCalls : Nat

/-- SqsMessagePublisher.resolveQueueUrl: serve from cache; accept canonical
http(s) URLs as-is; otherwise issue one GetQueueUrlCommand, caching a
successful resolution, rethrowing a ConfigurationError unchanged and
wrapping any other failure in a ConfigurationError. -/
def resolveQueueUrl {M : Type} (be : SqsBackend M) (st : SqsPublisherState M)
    (cfg : SqsPublisherConfig M) : ResolveOutcome :=
  match st.resolvedQueueUrl with
  | some url => ⟨.ok url, some url, 0⟩
  | none =>
    let destination := cfg.destination
    if jsStartsWith destination ("https://") || jsStartsWith destination ("http://") then
      ⟨.ok destination, some destination, 0⟩
    else
      match be.getQueueUrlResp destination with
      | .ok (some url) => ⟨.ok url, some url, 1⟩
      | .ok none =>
        ⟨.error (.configurationErr ("Failed to resolve queue name to URL: No queue URL returned") none),
          none, 1⟩
      | .error e =>
        if e.isConfigurationError then ⟨.error e, none, 1⟩
        else
          ⟨.error (.configurationErr ("Failed to resolve queue name to URL: " ++ e.message) (some e)),
            none, 1⟩

/-- resolveContext: the configured resolver outcome, or the empty context. -/
def resolveContext {M : Type} (cfg : SqsPublisherConfig M) :
    Except PubError PublishContext :=
  match cfg.contextResolver with
  | some outcome => outcome
  | none => .ok emptyContext

/-- enrichMessage: run the pipeline when one is configured, then merge the
explicit per-call attributes over the result (explicit attributes win). -/
def enrichMessage {M : Type} (pipeline : Option (EnrichmentPipeline M)) (msg : M)
    (ctx : PublishContext) (additionalAttributes : Option MessageAttributes) :
    Except PubError MessageAttributes :=
  let applyAdditional : MessageAttributes → MessageAttributes := fun attributes =>
    match additionalAttributes with
    | some extra => mergeAttrs attributes extra
    | none => attributes
  match pipeline with
  | some p =>
    match p.enrich msg ctx with
    | .ok attributes => .ok (applyAdditional attributes)
    | .error e => .error e
  | none => .ok (applyAdditional emptyAttrs)

/-- PublishOptions of a single publish call. -/
structure PublishOptions where
  messageAttributes : Option MessageAttributes := none
  deduplicationId : Option String := none
  groupId : Option String := none
  delaySeconds : Option Int := none

/-- PublishResult: the value returned by a successful publish. -/
structure PublishResult where
  messageId : String
  sequenceNumber : Option String
  destination : String
  timestamp : Nat
deriving DecidableEq, Repr

/-- The catch block of SqsMessagePublisher.publish: PublishError and
ConfigurationError are rethrown unchanged, everything else (including a
SerializationError) is wrapped in a PublishError carrying the resolved or
configured destination. -/
def sqsPublishCatch {M : Type} (st : SqsPublisherState M) (cfg : SqsPublisherConfig M)
    (e : PubError) : PubError :=
  if e.isPublishError || e.isConfigurationError then e
  else
    .publishFailure ("Failed to publish message to SQS: " ++ e.message)
      (st.resolvedQueueUrl.getD cfg.destination) (some e)

/-- Observable outcome of one publish call: the returned or thrown value,
the updated instance state, the number of GetQueueUrlCommand calls, and the
list of SendMessageCommand calls issued. -/
structure SqsPublishOutcome (M : Type) where
  result : Except PubError PublishResult
  state : SqsPublisherState M
  resolveCalls : Nat
  sent : List SqsSendCmd

/-- SqsMessagePublisher.publish: ensureConfigured, resolve the queue URL,
resolve the context, enrich, serialize, attach the content type, convert to
wire attributes, send, build the result; any failure runs through the catch
block sqsPublishCatch. -/
def sqsPublish {M : Type} (be : SqsBackend M) (st : SqsPublisherState M) (msg : M)
    (options : Option PublishOptions) : SqsPublishOutcome M :=
  match st.config with
  | none =>
    ⟨.error (.configurationErr ("Publisher must be configured before use. Call configure() first.") none),
      st, 0, []⟩
  | some cfg =>
    let r := resolveQueueUrl be st cfg
    let st1 : SqsPublisherState M := { st with resolvedQueueUrl := r.cache }
    match r.result with
    | .error e => ⟨.error (sqsPublishCatch st1 cfg e), st1, r.resolveCalls, []⟩
    | .ok queueUrl =>
      match resolveContext cfg with
      | .error e => ⟨.error (sqsPublishCatch st1 cfg e), st1, r.resolveCalls, []⟩
      | .ok context =>
        match enrichMessage st1.enrichmentPipeline msg context
            (options.bind fun o => o.messageAttributes) with
        | .error e => ⟨.error (sqsPublishCatch st1 cfg e), st1, r.resolveCalls, []⟩
        | .ok attributes =>
          match cfg.serializer.serialize msg with
          | .error e => ⟨.error (sqsPublishCatch st1 cfg e), st1, r.resolveCalls, []⟩
          | .ok serialized =>
            let finalAttributes := addContentTypeAttribute attributes serialized.contentType
            let command : SqsSendCmd :=
              { queueUrl := queueUrl
                messageBody := serialized.body
                messageAttributes := convertToSqsAttributes finalAttributes
                deduplicationId := options.bind fun o => o.deduplicationId
                groupId := options.bind fun o => o.groupId
                delaySeconds := options.bind fun o => o.delaySeconds }
            match be.sendMessageResp command with
            | .error e => ⟨.error (sqsPublishCatch st1 cfg e), st1, r.resolveCalls, [command]⟩
            | .ok response =>
              ⟨.ok { messageId := response.messageId
                     sequenceNumber := response.sequenceNumber
                     destination := queueUrl
                     timestamp := be.now },
                st1, r.resolveCalls, [command]⟩

/-- The SNS client boundary: the CreateTopicCommand round trip (idempotent
lookup-or-create), whose ok payload is the possibly absent
response.TopicArn. -/
structure SnsBackend where
  createTopicResp : String → Except PubError (Option String)

/-- SnsMessagePublisher.resolveTopicArn: serve from cache; accept canonical
ARNs as-is; otherwise issue one CreateTopicCommand, caching a successful
resolution.  Unlike the SQS variant, the catch block wraps every failure in
a ConfigurationError, so the inner no-ARN ConfigurationError gets wrapped a
second time. -/
def snsResolveTopicArn (be : SnsBackend) (cached : Option String)
    (destination : String) : ResolveOutcome :=
  match cached with
  | some arn => ⟨.ok arn, some arn, 0⟩
  | none =>
    if jsStartsWith destination ("arn:aws:sns:") || jsStartsWith destination ("arn:aws-") then
      ⟨.ok destination, some destination, 0⟩
    else
      match be.createTopicResp destination with
      | .ok (some arn) => ⟨.ok arn, some arn, 1⟩
      | .ok none =>
        let inner : PubError :=
          .configurationErr ("Failed to resolve topic name to ARN: No topic ARN returned") none
        ⟨.error (.configurationErr ("Failed to resolve topic name to ARN: " ++ inner.message) (some inner)),
          none, 1⟩
      | .error e =>
        ⟨.error (.configurationErr ("Failed to resolve topic name to ARN: " ++ e.message) (some e)),
          none, 1⟩

/-- FailedPublish: a per-message batch failure with the zero-based index of
the message in the original input array. -/
structure FailedPublish (M E : Type) where
  message : M
  error : E
  index : Nat
deriving DecidableEq, Repr

/-- BatchPublishResult. -/
structure BatchPublishResult (R M E : Type) where
  successful : List R
  failed : List (FailedPublish M E)
  totalCount : Nat
  successCount : Nat
  failureCount : Nat
deriving DecidableEq, Repr

/-- Structural worker for the chunking loop, with a fuel argument bounding
the recursion depth so that the definition evaluates by kernel reduction;
any fuel at least the list length yields the same value. -/
def chunksGo {M : Type} : Nat → List M → List (List M)
  | _, [] => []
  | 0, _ :: _ => []
  | fuel + 1, m :: rest => (m :: rest.take 9) :: chunksGo fuel (rest.drop 9)

/-- The chunking loop of publishBatch: slices of ten consecutive messages
(chunkSize is the fixed AWS batch limit). -/
def chunks10 {M : Type} (l : List M) : List (List M) :=
  chunksGo l.length l

theorem chunksGo_congr {M : Type} :
    ∀ (fuel fuel' : Nat) (l : List M), l.length ≤ fuel → l.length ≤ fuel' →
      chunksGo fuel l = chunksGo fuel' l := by
  intro fuel
  induction fuel with
  | zero =>
    intro fuel' l h _
    have : l = [] := List.length_eq_zero.mp (Nat.le_zero.mp h)
    subst this
    cases fuel' <;> rfl
  | succ k ih =>
    intro fuel' l h h'
    cases l with
    | nil => cases fuel' <;> rfl
    | cons m rest =>
      cases fuel' with
      | zero => exact absurd h' (by simp)
      | succ k' =>
        simp only [chunksGo]
        have hd : (rest.drop 9).length ≤ rest.length := by
          simp [List.length_drop]
        exact congrArg _ (ih k' (rest.drop 9)
          (le_trans hd (Nat.le_of_succ_le_succ (by simpa using h)))
          (le_trans hd (Nat.le_of_succ_le_succ (by simpa using h'))))

/-- chunks10 on the empty list. -/
theorem chunks10_nil {M : Type} : chunks10 ([] : List M) = [] := rfl

/-- The defining recursion of chunks10: the first ten messages form the
first chunk, the rest is chunked recursively. -/
theorem chunks10_cons {M : Type} (m : M) (rest : List M) :
    chunks10 (m :: rest) = (m :: rest.take 9) :: chunks10 (rest.drop 9) := by
  show chunksGo (rest.length + 1) (m :: rest) = _
  simp only [chunksGo]
  exact congrArg _ (chunksGo_congr rest.length (rest.drop 9).length (rest.drop 9)
    (by simp [List.length_drop]) (le_refl _))

/-- The settled outcome of one in-chunk promise: the then/catch projection
of a publish call, tagged with message and original index. -/
inductive PubOutcome (M E R : Type) where
  | success (result : R) (message : M) (index : Nat)
  | failure (error : E) (message : M) (index : Nat)
deriving DecidableEq, Repr

/-- The chunk.map of publishBatch: dispatch every message of the chunk,
computing originalIndex as chunkIndex * 10 + indexInChunk.  The source
computes chunkIndex as chunks.indexOf(chunk), which under JavaScript
reference equality of the freshly sliced arrays is the positional index
used here; Promise.all settles the outcomes in position order regardless of
completion order. -/
def chunkOutcomes {M E R : Type} (pub : M → Except E R) (chunkIndex : Nat)
    (chunk : List M) : List (PubOutcome M E R) :=
  chunk.enum.map fun p =>
    match pub p.2 with
    | .ok r => .success r p.2 (chunkIndex * 10 + p.1)
    | .error e => .failure e p.2 (chunkIndex * 10 + p.1)

/-- The aggregation loop over the settled results of one chunk: successes
append to successful, failures append to failed, and when continueOnError
is false the first failure returns early (third component true) without
looking at the remaining settled results. -/
def processResults {M E R : Type} (continueOnError : Bool) :
    List (PubOutcome M E R) → List R → List (FailedPublish M E) →
    List R × List (FailedPublish M E) × Bool
  | [], successful, failed => (successful, failed, false)
  | .success r _ _ :: rest, successful, failed =>
    processResults continueOnError rest (successful ++ [r]) failed
  | .failure e m i :: rest, successful, failed =>
    if continueOnError then
      processResults continueOnError rest successful (failed ++ [⟨m, e, i⟩])
    else (successful, failed ++ [⟨m, e, i⟩], true)

/-- The outer loop of publishBatch over the chunks: each chunk is awaited
in full (Promise.all) and aggregated; an early return from the chunk
aggregation stops before any later chunk is dispatched. -/
def runChunks {M E R : Type} (pub : M → Except E R) (continueOnError : Bool) :
    List (List M) → Nat → List R → List (FailedPublish M E) →
    List R × List (FailedPublish M E)
  | [], _, successful, failed => (successful, failed)
  | chunk :: rest, chunkIndex, successful, failed =>
    match processResults continueOnError (chunkOutcomes pub chunkIndex chunk) successful failed with
    | (successful1, failed1, true) => (successful1, failed1)
    | (successful1, failed1, false) =>
      runChunks pub continueOnError rest (chunkIndex + 1) successful1 failed1

/-- The chunked concurrent batch dispatcher shared verbatim by
SqsMessagePublisher.publishBatch and SnsMessagePublisher.publishBatch,
with the per-message publish call abstracted as pub.  totalCount is the
full input length on the early-return path as well. -/
def batchDispatch {M E R : Type} (pub : M → Except E R) (messages : List M)
    (continueOnError : Bool) : BatchPublishResult R M E :=
  let aggregated := runChunks pub continueOnError (chunks10 messages) 0 [] []
  { successful := aggregated.1
    failed := aggregated.2
    totalCount := messages.length
    successCount := aggregated.1.length
    failureCount := aggregated.2.length }

/-- BatchPublishOptions: the publish options plus continueOnError. -/
structure BatchPublishOptions where
  messageAttributes : Option MessageAttributes := none
  deduplicationId : Option String := none
  groupId : Option String := none
  delaySeconds : Option Int := none
  continueOnError : Option Bool := none

/-- The PublishOptions view of batch options (the same object is handed to
every per-message publish call). -/
def BatchPublishOptions.toPublishOptions (o : BatchPublishOptions) : PublishOptions where
  messageAttributes := o.messageAttributes
  deduplicationId := o.deduplicationId
  groupId := o.groupId
  delaySeconds := o.delaySeconds

/-- SqsMessagePublisher.publishBatch: ensureConfigured, default
continueOnError to true, then run the chunked dispatcher; every per-message
publish is dispatched against the batch entry state (the in-chunk calls run
concurrently in the source). -/
def sqsPublishBatch {M : Type} (be : SqsBackend M) (st : SqsPublisherState M)
    (messages : List M) (options : Option BatchPublishOptions) :
    Except PubError (BatchPublishResult PublishResult M PubError) :=
  match st.config with
  | none =>
    .error (.configurationErr ("Publisher must be configured before use. Call configure() first.") none)
  | some _ =>
    let continueOnError := (options.bind fun o => o.continueOnError).getD true
    .ok (batchDispatch
      (fun m => (sqsPublish be st m (options.map fun o => o.toPublishOptions)).result)
      messages continueOnError)

/-- SnsMessagePublisher.publishBatch: ensureConfigured, then resolve the
topic ARN before the try block (a resolution failure is thrown to the
caller), then run the same chunked dispatcher; the per-message publish call
is abstracted as pub. -/
def snsPublishBatch {M : Type} (be : SnsBackend) (configured : Bool)
    (cached : Option String) (destination : String)
    (pub : M → Except PubError PublishResult) (messages : List M)
    (options : Option BatchPublishOptions) :
    Except PubError (BatchPublishResult PublishResult M PubError) :=
  if !configured then
    .error (.configurationErr ("Publisher must be configured before use. Call configure() first.") none)
  else
    match (snsResolveTopicArn be cached destination).result with
    | .error e => .error e
    | .ok _ =>
      let continueOnError := (options.bind fun o => o.continueOnError).getD true
      .ok (batchDispatch pub messages continueOnError)

/-- Whether an Except settled successfully. -/
def isOkE {E A : Type} : Except E A → Bool
  | .ok _ => true
  | .error _ => false

theorem mem_insertSorted {M : Type} {e y : MessageEnricher M} :
    ∀ {l : List (MessageEnricher M)}, y ∈ insertSorted e l → y = e ∨ y ∈ l := by
  intro l
  induction l with
  | nil =>
    intro h
    simp only [insertSorted, List.mem_singleton] at h
    exact Or.inl h
  | cons x xs ih =>
    intro h
    simp only [insertSorted] at h
    split at h
    · rcases List.mem_cons.mp h with h1 | h1
      · exact Or.inr (List.mem_cons.mpr (Or.inl h1))
      · rcases ih h1 with h2 | h2
        · exact Or.inl h2
        · exact Or.inr (List.mem_cons.mpr (Or.inr h2))
    · rcases List.mem_cons.mp h with h1 | h1
      · exact Or.inl h1
      · exact Or.inr h1

theorem pairwise_insertSorted {M : Type} (e : MessageEnricher M) :
    ∀ {l : List (MessageEnricher M)},
      l.Pairwise (fun a b => a.effectivePriority ≤ b.effectivePriority) →
      (insertSorted e l).Pairwise (fun a b => a.effectivePriority ≤ b.effectivePriority) := by
  intro l
  induction l with
  | nil => intro _; simp [insertSorted]
  | cons x xs ih =>
    intro h
    rcases List.pairwise_cons.mp h with ⟨hx, hxs⟩
    simp only [insertSorted]
    split
    · rename_i hlt
      refine List.pairwise_cons.mpr ⟨?_, ih hxs⟩
      intro y hy
      rcases mem_insertSorted hy with rfl | hy1
      · exact le_of_lt hlt
      · exact hx y hy1
    · rename_i hge
      have hpe : e.effectivePriority ≤ x.effectivePriority := not_lt.mp hge
      refine List.pairwise_cons.mpr ⟨?_, h⟩
      intro y hy
      rcases List.mem_cons.mp hy with rfl | hy1
      · exact hpe
      · exact le_trans hpe (hx y hy1)

theorem pairwise_sortEnrichers {M : Type} (l : List (MessageEnricher M)) :
    (sortEnrichers l).Pairwise (fun a b => a.effectivePriority ≤ b.effectivePriority) := by
  induction l with
  | nil => simp [sortEnrichers]
  | cons e rest ih => exact pairwise_insertSorted e ih

theorem filter_insertSorted {M : Type} (p : Int) (e : MessageEnricher M) :
    ∀ (l : List (MessageEnricher M)),
      (insertSorted e l).filter (fun x => x.effectivePriority == p) =
      if e.effectivePriority == p
      then e :: l.filter (fun x => x.effectivePriority == p)
      else l.filter (fun x => x.effectivePriority == p) := by
  intro l
  induction l with
  | nil =>
    by_cases hp : e.effectivePriority = p <;> simp [insertSorted, List.filter_cons, hp]
  | cons x xs ih =>
    simp only [insertSorted]
    split
    · rename_i hlt
      by_cases hp : e.effectivePriority = p
      · have hxp : ¬ x.effectivePriority = p := by
          intro hc
          rw [hc, hp] at hlt
          exact lt_irrefl p hlt
        simp [List.filter_cons, hxp, hp, ih]
      · by_cases hxp : x.effectivePriority = p <;>
          simp [List.filter_cons, hxp, hp, ih]
    · by_cases hp : e.effectivePriority = p <;>
        simp [List.filter_cons, hp]

theorem filter_sortEnrichers {M : Type} (p : Int) (l : List (MessageEnricher M)) :
    (sortEnrichers l).filter (fun x => x.effectivePriority == p) =
    l.filter (fun x => x.effectivePriority == p) := by
  induction l with
  | nil => rfl
  | cons e rest ih =>
    rw [sortEnrichers, filter_insertSorted, ih, List.filter_cons]

theorem enrichFold_filterMap {M : Type} (msg : M) (ctx : PublishContext) :
    ∀ (l : List (MessageEnricher M)) (acc : MessageAttributes),
      enrichFold msg ctx l acc =
      (l.filterMap (fun e => (e.enrich msg ctx).toOption)).foldl mergeAttrs acc := by
  intro l
  induction l with
  | nil => intro acc; rfl
  | cons e rest ih =>
    intro acc
    simp only [enrichFold, List.filterMap_cons]
    cases h : e.enrich msg ctx with
    | ok attrs => simp [h, Except.toOption, List.foldl_cons, ih]
    | error err => simp [h, Except.toOption, ih]

/-- C2: for every set of enrichers and every message and context, enrich
never rejects: it resolves with the left fold of Object.assign merges over
the outputs of exactly the non-throwing enrichers, in sorted execution
order (the empty record when there are no enrichers or all failed). -/
theorem enrich_resolves_with_nonfailing_merge :
    ∀ (M : Type) (enrichers : List (MessageEnricher M)) (msg : M) (ctx : PublishContext),
      (EnrichmentPipeline.create enrichers).enrich msg ctx =
      .ok ((((EnrichmentPipeline.create enrichers).getEnrichers).filterMap
        (fun e => (e.enrich msg ctx).toOption)).foldl mergeAttrs emptyAttrs) := by
  intro M enrichers msg ctx
  unfold EnrichmentPipeline.enrich
  rw [enrichFold_filterMap]
  rfl

/-- C5: the pipeline holds its enrichers in a stable ascending sort by
priority: getEnrichers is pairwise non-decreasing in effective priority;
for every priority value, the subsequence of enrichers at that priority
equals the corresponding subsequence of the input (stability); an enricher
without getPriority defaults to priority 100; and for three enrichers with
priorities 30, 10, 20 the execution order is priority 10, then 20, then
30. -/
theorem pipeline_sorted_stable_by_priority :
    (∀ (M : Type) (enrichers : List (MessageEnricher M)),
      ((EnrichmentPipeline.create enrichers).getEnrichers).Pairwise
        (fun a b => a.effectivePriority ≤ b.effectivePriority)) ∧
    (∀ (M : Type) (enrichers : List (MessageEnricher M)) (p : Int),
      ((EnrichmentPipeline.create enrichers).getEnrichers).filter
        (fun e => e.effectivePriority == p) =
      enrichers.filter (fun e => e.effectivePriority == p)) ∧
    (∀ (M : Type) (f : M → PublishContext → Except PubError MessageAttributes),
      (MessageEnricher.mk f none).effectivePriority = 100) ∧
    ((EnrichmentPipeline.create
        ([⟨fun _ _ => .ok emptyAttrs, some 30⟩,
          ⟨fun _ _ => .ok emptyAttrs, some 10⟩,
          ⟨fun _ _ => .ok emptyAttrs, some 20⟩] :
          List (MessageEnricher Unit))).getEnrichers.map
      MessageEnricher.effectivePriority) = ([10, 20, 30] : List Int) := by
  refine ⟨?_, ?_, ?_, ?_⟩
  · intro M enrichers
    exact pairwise_sortEnrichers enrichers
  · intro M enrichers p
    exact filter_sortEnrichers p enrichers
  · intro M f
    rfl
  · decide

theorem enrichMessage_not_error {M : Type} (pipeline : Option (EnrichmentPipeline M))
    (msg : M) (ctx : PublishContext) (additionalAttributes : Option MessageAttributes) :
    ∀ e, enrichMessage pipeline msg ctx additionalAttributes ≠ .error e := by
  intro e h
  unfold enrichMessage at h
  cases pipeline <;> simp [EnrichmentPipeline.enrich] at h

theorem enrichMessage_explicit_wins {M : Type} (pipeline : Option (EnrichmentPipeline M))
    (msg : M) (ctx : PublishContext) (extra : MessageAttributes) (k : String)
    (v : MessageAttributeValue) (hv : extra k = some v) :
    ∀ attrs, enrichMessage pipeline msg ctx (some extra) = .ok attrs → attrs k = some v := by
  intro attrs h
  unfold enrichMessage at h
  cases pipeline with
  | none =>
    simp only at h
    injection h with h
    subst h
    simp [mergeAttrs, hv]
  | some p =>
    simp [EnrichmentPipeline.enrich] at h
    subst h
    simp [mergeAttrs, hv]

/-- C6: on every successful single-message publish, the contentType entry of
the wire attribute record handed to SendMessageCommand is the String
attribute carrying exactly the content type returned by the configured
serializer, regardless of what enrichers or explicit per-call attributes put
under that key. -/
theorem sqs_contentType_from_serializer {M : Type} (be : SqsBackend M)
    (st : SqsPublisherState M) (cfg : SqsPublisherConfig M) (msg : M)
    (options : Option PublishOptions) (s : SerializedMessage)
    (hc : st.config = some cfg)
    (hs : cfg.serializer.serialize msg = .ok s) :
    ∀ cmd ∈ (sqsPublish be st msg options).sent,
      cmd.messageAttributes ("contentType") =
        some ⟨AttrDataType.string, some s.contentType, none⟩ := by
  intro cmd hcmd
  unfold sqsPublish at hcmd
  rw [hc] at hcmd
  simp only at hcmd
  split at hcmd
  · exact absurd hcmd (List.not_mem_nil cmd)
  split at hcmd
  · exact absurd hcmd (List.not_mem_nil cmd)
  split at hcmd
  · exact absurd hcmd (List.not_mem_nil cmd)
  split at hcmd
  · exact absurd hcmd (List.not_mem_nil cmd)
  rename_i serialized hser
  rw [hs] at hser
  injection hser with hser
  subst hser
  split at hcmd <;>
  · rw [List.mem_singleton] at hcmd
    subst hcmd
    simp [convertToSqsAttributes, addContentTypeAttribute, convertAttr, PrimVal.jsString]

/-- C7: for every key other than the synthetic contentType key, an explicit
per-call attribute under that key determines the wire attribute handed to
SendMessageCommand, overriding whatever the enrichment pipeline computed for
the same key. -/
theorem sqs_explicit_attributes_override {M : Type} (be : SqsBackend M)
    (st : SqsPublisherState M) (cfg : SqsPublisherConfig M) (msg : M)
    (options : Option PublishOptions) (extra : MessageAttributes) (k : String)
    (v : MessageAttributeValue)
    (hc : st.config = some cfg)
    (hopt : (options.bind fun o => o.messageAttributes) = some extra)
    (hk : k ≠ "contentType")
    (hv : extra k = some v) :
    ∀ cmd ∈ (sqsPublish be st msg options).sent,
      cmd.messageAttributes k = some (convertAttr v) := by
  intro cmd hcmd
  unfold sqsPublish at hcmd
  rw [hc] at hcmd
  simp only at hcmd
  split at hcmd
  · exact absurd hcmd (List.not_mem_nil cmd)
  split at hcmd
  · exact absurd hcmd (List.not_mem_nil cmd)
  split at hcmd
  · exact absurd hcmd (List.not_mem_nil cmd)
  rename_i attributes hattrs
  rw [hopt] at hattrs
  have hak : attributes k = some v :=
    enrichMessage_explicit_wins _ msg _ extra k v hv attributes hattrs
  split at hcmd
  · exact absurd hcmd (List.not_mem_nil cmd)
  split at hcmd <;>
  · rw [List.mem_singleton] at hcmd
    subst hcmd
    simp [convertToSqsAttributes, addContentTypeAttribute, hk, hak]

/-- The shape demanded of a thrown error by the amended serialization claim:
a PublishError whose message wraps the cause message and whose cause is the
original serialization error. -/
def resultWrapsAsPublishFailure (r : Except PubError PublishResult) (e : PubError) : Prop :=
  match r with
  | .error (.publishFailure m _ c) =>
    m = "Failed to publish message to SQS: " ++ e.message ∧ c = some e
  | _ => False

theorem sqsPublishCatch_wraps {M : Type} (st : SqsPublisherState M)
    (cfg : SqsPublisherConfig M) (e : PubError) (he : e.isSerializationError = true) :
    sqsPublishCatch st cfg e =
      .publishFailure ("Failed to publish message to SQS: " ++ e.message)
        (st.resolvedQueueUrl.getD cfg.destination) (some e) := by
  cases e <;>
    simp_all [PubError.isSerializationError, PubError.isPublishError,
      PubError.isConfigurationError, sqsPublishCatch]

/-- C3 (amended): when the configured serializer fails with a
SerializationError, publish throws a PublishError that wraps that
serialization error as its cause (not the serialization error itself), and
no SendMessageCommand is issued for the message. -/
theorem sqs_serializer_failure_aborts_send {M : Type} (be : SqsBackend M)
    (st : SqsPublisherState M) (cfg : SqsPublisherConfig M) (msg : M)
    (options : Option PublishOptions) (e : PubError) (u : String) (ctx : PublishContext)
    (hc : st.config = some cfg)
    (hr : (resolveQueueUrl be st cfg).result = .ok u)
    (hcx : resolveContext cfg = .ok ctx)
    (hs : cfg.serializer.serialize msg = .error e)
    (he : e.isSerializationError = true) :
    resultWrapsAsPublishFailure (sqsPublish be st msg options).result e ∧
    (sqsPublish be st msg options).sent = [] := by
  unfold sqsPublish
  rw [hc]
  simp only
  split
  · rename_i e1 heq
    rw [hr] at heq
    exact Except.noConfusion heq
  split
  · rename_i e1 heq
    rw [hcx] at heq
    exact Except.noConfusion heq
  split
  · rename_i e1 heq
    exact absurd heq (enrichMessage_not_error _ msg _ _ e1)
  split
  · rename_i e1 heq
    rw [hs] at heq
    injection heq with heq
    subst heq
    rw [sqsPublishCatch_wraps _ cfg e he]
    exact ⟨⟨rfl, rfl⟩, rfl⟩
  · rename_i s1 heq
    rw [hs] at heq
    exact Except.noConfusion heq

/-- A serializer whose underlying JSON.stringify throws (circular input). -/
def serializerFailDemo : MessageSerializer Unit :=
  jsonMessageSerializer (fun _ => .error (.jsErr ("Converting circular structure to JSON")))

/-- Configuration with a canonical queue URL and the failing serializer. -/
def cfgSerialFailDemo : SqsPublisherConfig Unit where
  destination := "https://sqs.us-east-1.amazonaws.com/123/demo-queue"
  serializer := serializerFailDemo

/-- A backend that would accept any send. -/
def beDemo : SqsBackend Unit where
  getQueueUrlResp := fun _ => .ok none
  sendMessageResp := fun _ => .ok ⟨"mid-1", none⟩
  now := 0

/-- The publisher state after configuring with cfgSerialFailDemo. -/
def stSerialFailDemo : SqsPublisherState Unit :=
  applyConfiguration (initialSqsState Unit) cfgSerialFailDemo

/-- C3 counterexample: with a serializer that fails with a
SerializationError, the error surfaced by publish is not
serialization-class but publish-class, because the catch block of publish
rethrows only PublishError and ConfigurationError unchanged and wraps
everything else, SerializationError included. -/
theorem sqs_serializer_failure_surfaces_as_publish_error :
    (match stSerialFailDemo.config with
      | some cfg => (match cfg.serializer.serialize () with
        | .error err => err.isSerializationError
        | .ok _ => false)
      | none => false) = true ∧
    (match (sqsPublish beDemo stSerialFailDemo () none).result with
      | .error err => err.isSerializationError
      | .ok _ => true) = false ∧
    (match (sqsPublish beDemo stSerialFailDemo () none).result with
      | .error err => err.isPublishError
      | .ok _ => false) = true := by
  refine ⟨?_, ?_, ?_⟩ <;> decide

theorem sqs_serializer_failure_aborts_send_witness :
    cfgSerialFailDemo.serializer.serialize () =
      .error (.serializationErr ("Failed to serialize message to JSON")
        (some (.jsErr ("Converting circular structure to JSON")))) ∧
    (resultWrapsAsPublishFailure (sqsPublish beDemo stSerialFailDemo () none).result
      (.serializationErr ("Failed to serialize message to JSON")
        (some (.jsErr ("Converting circular structure to JSON")))) ∧
    (sqsPublish beDemo stSerialFailDemo () none).sent = []) :=
  ⟨rfl,
    sqs_serializer_failure_aborts_send beDemo stSerialFailDemo cfgSerialFailDemo () none
      (.serializationErr ("Failed to serialize message to JSON")
        (some (.jsErr ("Converting circular structure to JSON"))))
      ("https://sqs.us-east-1.amazonaws.com/123/demo-queue") emptyContext
      rfl rfl rfl rfl rfl⟩

theorem sqsPublish_resolveCalls {M : Type} (be : SqsBackend M) (st : SqsPublisherState M)
    (cfg : SqsPublisherConfig M) (msg : M) (options : Option PublishOptions)
    (hc : st.config = some cfg) :
    (sqsPublish be st msg options).resolveCalls = (resolveQueueUrl be st cfg).resolveCalls := by
  unfold sqsPublish
  rw [hc]
  simp only
  split
  · rfl
  split
  · rfl
  split
  · rfl
  split
  · rfl
  split <;> rfl

theorem sqsPublish_state_config {M : Type} (be : SqsBackend M) (st : SqsPublisherState M)
    (cfg : SqsPublisherConfig M) (msg : M) (options : Option PublishOptions)
    (hc : st.config = some cfg) :
    (sqsPublish be st msg options).state.config = some cfg := by
  unfold sqsPublish
  rw [hc]
  simp only
  split
  · rfl
  split
  · rfl
  split
  · rfl
  split
  · rfl
  split <;> rfl

theorem sqsPublish_state_cache {M : Type} (be : SqsBackend M) (st : SqsPublisherState M)
    (cfg : SqsPublisherConfig M) (msg : M) (options : Option PublishOptions)
    (hc : st.config = some cfg) :
    (sqsPublish be st msg options).state.resolvedQueueUrl = (resolveQueueUrl be st cfg).cache := by
  unfold sqsPublish
  rw [hc]
  simp only
  split
  · rfl
  split
  · rfl
  split
  · rfl
  split
  · rfl
  split <;> rfl

theorem resolveQueueUrl_cached {M : Type} (be : SqsBackend M) (st : SqsPublisherState M)
    (cfg : SqsPublisherConfig M) (url : String) (h : st.resolvedQueueUrl = some url) :
    resolveQueueUrl be st cfg = ⟨.ok url, some url, 0⟩ := by
  unfold resolveQueueUrl
  rw [h]

theorem resolveQueueUrl_canonical {M : Type} (be : SqsBackend M) (st : SqsPublisherState M)
    (cfg : SqsPublisherConfig M) (h : st.resolvedQueueUrl = none)
    (hcanon : (jsStartsWith cfg.destination ("https://") ||
      jsStartsWith cfg.destination ("http://")) = true) :
    resolveQueueUrl be st cfg = ⟨.ok cfg.destination, some cfg.destination, 0⟩ := by
  unfold resolveQueueUrl
  rw [h]
  simp [hcanon]

theorem resolveQueueUrl_lookup {M : Type} (be : SqsBackend M) (st : SqsPublisherState M)
    (cfg : SqsPublisherConfig M) (url : String) (h : st.resolvedQueueUrl = none)
    (hcanon : (jsStartsWith cfg.destination ("https://") ||
      jsStartsWith cfg.destination ("http://")) = false)
    (hres : be.getQueueUrlResp cfg.destination = .ok (some url)) :
    resolveQueueUrl be st cfg = ⟨.ok url, some url, 1⟩ := by
  unfold resolveQueueUrl
  rw [h]
  simp [hcanon, hres]

/-- C10: destination resolution is cached per configuration.  With a
canonical destination (http(s) queue URL for SQS, ARN for SNS) the
name-resolution primitive is never called; with a short name a freshly
configured publisher issues exactly one resolution call on the first
publish and none on the next one; re-applying a configuration clears the
cached address; and the SNS resolver behaves identically at the resolver
level (zero calls for ARNs or a warm cache, one call, cached, for a short
name). -/
theorem destination_resolution_cached_per_configuration :
    (∀ (M : Type) (be : SqsBackend M) (st : SqsPublisherState M)
        (cfg : SqsPublisherConfig M) (msg : M) (options : Option PublishOptions),
      st.config = some cfg →
      (jsStartsWith cfg.destination ("https://") ||
        jsStartsWith cfg.destination ("http://")) = true →
      (sqsPublish be st msg options).resolveCalls = 0) ∧
    (∀ (M : Type) (be : SqsBackend M) (st0 : SqsPublisherState M)
        (cfg : SqsPublisherConfig M) (msg msg2 : M)
        (options options2 : Option PublishOptions) (url : String),
      (jsStartsWith cfg.destination ("https://") ||
        jsStartsWith cfg.destination ("http://")) = false →
      be.getQueueUrlResp cfg.destination = .ok (some url) →
      (sqsPublish be (applyConfiguration st0 cfg) msg options).resolveCalls = 1 ∧
      (sqsPublish be (sqsPublish be (applyConfiguration st0 cfg) msg options).state
        msg2 options2).resolveCalls = 0) ∧
    (∀ (M : Type) (st : SqsPublisherState M) (cfg : SqsPublisherConfig M),
      (applyConfiguration st cfg).resolvedQueueUrl = none) ∧
    (∀ (be : SnsBackend) (cached : Option String) (destination : String),
      (jsStartsWith destination ("arn:aws:sns:") ||
        jsStartsWith destination ("arn:aws-")) = true →
      (snsResolveTopicArn be cached destination).resolveCalls = 0) ∧
    (∀ (be : SnsBackend) (destination arn : String),
      (jsStartsWith destination ("arn:aws:sns:") ||
        jsStartsWith destination ("arn:aws-")) = false →
      be.createTopicResp destination = .ok (some arn) →
      (snsResolveTopicArn be none destination).resolveCalls = 1 ∧
      (snsResolveTopicArn be none destination).cache = some arn ∧
      (snsResolveTopicArn be (some arn) destination).resolveCalls = 0) := by
  refine ⟨?_, ?_, ?_, ?_, ?_⟩
  · intro M be st cfg msg options hc hcanon
    rw [sqsPublish_resolveCalls be st cfg msg options hc]
    cases h : st.resolvedQueueUrl with
    | some url => rw [resolveQueueUrl_cached be st cfg url h]
    | none => rw [resolveQueueUrl_canonical be st cfg h hcanon]
  · intro M be st0 cfg msg msg2 options options2 url hcanon hres
    have hc : (applyConfiguration st0 cfg).config = some cfg := rfl
    have hcache : (applyConfiguration st0 cfg).resolvedQueueUrl = none := rfl
    have hlook := resolveQueueUrl_lookup be (applyConfiguration st0 cfg) cfg url hcache hcanon hres
    constructor
    · rw [sqsPublish_resolveCalls be _ cfg msg options hc, hlook]
    · have hc1 := sqsPublish_state_config be (applyConfiguration st0 cfg) cfg msg options hc
      have hcache1 : (sqsPublish be (applyConfiguration st0 cfg) msg options).state.resolvedQueueUrl
          = some url := by
        rw [sqsPublish_state_cache be _ cfg msg options hc, hlook]
      rw [sqsPublish_resolveCalls be _ cfg msg2 options2 hc1,
        resolveQueueUrl_cached be _ cfg url hcache1]
  · intro M st cfg
    rfl
  · intro be cached destination hcanon
    unfold snsResolveTopicArn
    cases cached with
    | some arn => rfl
    | none => simp [hcanon]
  · intro be destination arn hcanon hres
    refine ⟨?_, ?_, ?_⟩ <;> simp [snsResolveTopicArn, hcanon, hres]

/-- A serializer that always succeeds. -/
def serializerOkDemo : MessageSerializer Unit :=
  jsonMessageSerializer (fun _ => .ok ("\x7b\x7d"))

/-- Configuration naming the queue by short name. -/
def cfgShortNameDemo : SqsPublisherConfig Unit where
  destination := "orders-queue"
  serializer := serializerOkDemo

/-- Configuration carrying a canonical queue URL. -/
def cfgCanonDemo : SqsPublisherConfig Unit where
  destination := "https://sqs.us-east-1.amazonaws.com/123/orders-queue"
  serializer := serializerOkDemo

/-- Backend resolving the short queue name. -/
def beShortNameDemo : SqsBackend Unit where
  getQueueUrlResp := fun _ => .ok (some ("https://sqs.us-east-1.amazonaws.com/123/orders-queue"))
  sendMessageResp := fun _ => .ok ⟨"mid-2", none⟩
  now := 0

/-- SNS backend resolving the short topic name. -/
def snsBeDemo : SnsBackend where
  createTopicResp := fun _ => .ok (some ("arn:aws:sns:us-east-1:123:orders-topic"))

theorem destination_resolution_cached_per_configuration_witness :
    (sqsPublish beShortNameDemo (applyConfiguration (initialSqsState Unit) cfgCanonDemo)
      () none).resolveCalls = 0 ∧
    (sqsPublish beShortNameDemo (applyConfiguration (initialSqsState Unit) cfgShortNameDemo)
      () none).resolveCalls = 1 ∧
    (sqsPublish beShortNameDemo
      (sqsPublish beShortNameDemo (applyConfiguration (initialSqsState Unit) cfgShortNameDemo)
        () none).state () none).resolveCalls = 0 ∧
    (applyConfiguration
      (sqsPublish beShortNameDemo (applyConfiguration (initialSqsState Unit) cfgShortNameDemo)
        () none).state cfgShortNameDemo).resolvedQueueUrl = none ∧
    (snsResolveTopicArn snsBeDemo none ("arn:aws:sns:us-east-1:123:orders-topic")).resolveCalls = 0 ∧
    (snsResolveTopicArn snsBeDemo none ("orders-topic")).resolveCalls = 1 ∧
    (snsResolveTopicArn snsBeDemo
      (some ("arn:aws:sns:us-east-1:123:orders-topic")) ("orders-topic")).resolveCalls = 0 := by
  have h := destination_resolution_cached_per_configuration
  have hsqs := h.2.1 Unit beShortNameDemo (initialSqsState Unit) cfgShortNameDemo () () none none
    ("https://sqs.us-east-1.amazonaws.com/123/orders-queue") (by decide) rfl
  have hsns := h.2.2.2.2 snsBeDemo ("orders-topic") ("arn:aws:sns:us-east-1:123:orders-topic")
    (by decide) rfl
  exact ⟨h.1 Unit beShortNameDemo _ cfgCanonDemo () none rfl (by decide),
    hsqs.1, hsqs.2,
    h.2.2.1 Unit _ cfgShortNameDemo,
    h.2.2.2.1 snsBeDemo none _ (by decide),
    hsns.1, hsns.2.2⟩

/-- A demo enricher that also claims the contentType key. -/
def enricherDemo : MessageEnricher Unit where
  enrich := fun _ _ => .ok (fun k =>
    if k = "contentType" then some ⟨AttrDataType.string, PrimVal.pstr ("from-enricher")⟩
    else if k = "env" then some ⟨AttrDataType.string, PrimVal.pstr ("enriched")⟩
    else none)
  getPriority := some 5

/-- Configuration with the demo enricher and a succeeding serializer. -/
def cfgEnrichDemo : SqsPublisherConfig Unit where
  destination := "https://sqs.us-east-1.amazonaws.com/123/demo-queue"
  serializer := serializerOkDemo
  enrichers := [enricherDemo]

/-- The publisher state after configuring with cfgEnrichDemo. -/
def stEnrichDemo : SqsPublisherState Unit :=
  applyConfiguration (initialSqsState Unit) cfgEnrichDemo

/-- Explicit per-call attributes, colliding with the enricher on both the
contentType key and the env key. -/
def extraDemo : MessageAttributes := fun k =>
  if k = "contentType" then some ⟨AttrDataType.string, PrimVal.pstr ("from-options")⟩
  else if k = "env" then some ⟨AttrDataType.string, PrimVal.pstr ("explicit")⟩
  else none

/-- Publish options carrying the explicit attributes. -/
def optsDemo : PublishOptions where
  messageAttributes := some extraDemo

theorem sqs_contentType_from_serializer_witness :
    stEnrichDemo.config = some cfgEnrichDemo ∧
    cfgEnrichDemo.serializer.serialize () = .ok ⟨"\x7b\x7d", "application/json"⟩ ∧
    ((sqsPublish beDemo stEnrichDemo () (some optsDemo)).sent.map
      (fun c => c.messageAttributes ("contentType"))) =
    [some ⟨AttrDataType.string, some ("application/json"), none⟩] := by
  refine ⟨rfl, rfl, ?_⟩
  have hthm := sqs_contentType_from_serializer beDemo stEnrichDemo cfgEnrichDemo ()
    (some optsDemo) ⟨"\x7b\x7d", "application/json"⟩ rfl rfl
  have hlen : (sqsPublish beDemo stEnrichDemo () (some optsDemo)).sent.length = 1 := by decide
  cases hs : (sqsPublish beDemo stEnrichDemo () (some optsDemo)).sent with
  | nil => rw [hs] at hlen; simp at hlen
  | cons a l =>
    rw [hs] at hlen hthm
    cases l with
    | cons b l2 => simp at hlen
    | nil =>
      simp only [List.map_cons, List.map_nil]
      rw [hthm a (List.mem_singleton_self a)]

theorem sqs_explicit_attributes_override_witness :
    extraDemo ("env") = some ⟨AttrDataType.string, PrimVal.pstr ("explicit")⟩ ∧
    (match enricherDemo.enrich () emptyContext with
      | .ok attrs => attrs ("env")
      | .error _ => none) = some ⟨AttrDataType.string, PrimVal.pstr ("enriched")⟩ ∧
    ((sqsPublish beDemo stEnrichDemo () (some optsDemo)).sent.map
      (fun c => c.messageAttributes ("env"))) =
    [some (convertAttr ⟨AttrDataType.string, PrimVal.pstr ("explicit")⟩)] := by
  refine ⟨rfl, rfl, ?_⟩
  have hthm := sqs_explicit_attributes_override beDemo stEnrichDemo cfgEnrichDemo ()
    (some optsDemo) extraDemo ("env") ⟨AttrDataType.string, PrimVal.pstr ("explicit")⟩
    rfl rfl (by decide) rfl
  have hlen : (sqsPublish beDemo stEnrichDemo () (some optsDemo)).sent.length = 1 := by decide
  cases hs : (sqsPublish beDemo stEnrichDemo () (some optsDemo)).sent with
  | nil => rw [hs] at hlen; simp at hlen
  | cons a l =>
    rw [hs] at hlen hthm
    cases l with
    | cons b l2 => simp at hlen
    | nil =>
      simp only [List.map_cons, List.map_nil]
      rw [hthm a (List.mem_singleton_self a)]

theorem chunks10_getElem {M : Type} :
    ∀ (c : Nat) (l : List M) (chunk : List M), (chunks10 l)[c]? = some chunk →
      ∀ (j : Nat) (m : M), chunk[j]? = some m → l[c * 10 + j]? = some m := by
  intro c
  induction c with
  | zero =>
    intro l chunk hchunk j m hj
    cases l with
    | nil => exact absurd hchunk (by simp [chunks10, chunksGo])
    | cons m0 rest =>
      rw [chunks10_cons] at hchunk
      simp only [List.getElem?_cons_zero] at hchunk
      injection hchunk with hchunk
      subst hchunk
      cases j with
      | zero => simpa using hj
      | succ j1 =>
        simp only [List.getElem?_cons_succ] at hj
        rw [List.getElem?_take] at hj
        simp only [Nat.zero_mul, Nat.zero_add, List.getElem?_cons_succ]
        split at hj
        · exact hj
        · exact absurd hj (by simp)
  | succ c1 ih =>
    intro l chunk hchunk j m hj
    cases l with
    | nil => exact absurd hchunk (by simp [chunks10, chunksGo])
    | cons m0 rest =>
      rw [chunks10_cons] at hchunk
      simp only [List.getElem?_cons_succ] at hchunk
      have := ih (rest.drop 9) chunk hchunk j m hj
      rw [List.getElem?_drop] at this
      have harith : Nat.succ c1 * 10 + j = (9 + (c1 * 10 + j)) + 1 := by omega
      rw [harith, List.getElem?_cons_succ]
      exact this

theorem chunks10_index_mem {M : Type} :
    ∀ (c : Nat) (l : List M) (j : Nat) (m : M), j < 10 → l[c * 10 + j]? = some m →
      ∃ chunk, (chunks10 l)[c]? = some chunk ∧ chunk[j]? = some m := by
  intro c
  induction c with
  | zero =>
    intro l j m hj hl
    cases l with
    | nil => exact absurd hl (by simp)
    | cons m0 rest =>
      refine ⟨m0 :: rest.take 9, by rw [chunks10_cons]; simp, ?_⟩
      cases j with
      | zero => simpa using hl
      | succ j1 =>
        simp only [Nat.zero_mul, Nat.zero_add, List.getElem?_cons_succ] at hl
        simp only [List.getElem?_cons_succ]
        rw [List.getElem?_take]
        have : j1 < 9 := by omega
        simp [this, hl]
  | succ c1 ih =>
    intro l j m hj hl
    cases l with
    | nil => exact absurd hl (by simp)
    | cons m0 rest =>
      have harith : Nat.succ c1 * 10 + j = (9 + (c1 * 10 + j)) + 1 := by omega
      rw [harith, List.getElem?_cons_succ] at hl
      rw [← List.getElem?_drop] at hl
      rcases ih (rest.drop 9) j m hj hl with ⟨chunk, hc, hcj⟩
      refine ⟨chunk, ?_, hcj⟩
      rw [chunks10_cons]
      simpa using hc

theorem mem_enumFrom_of_getElem {α : Type} :
    ∀ (l : List α) (n j : Nat) (a : α), l[j]? = some a → (n + j, a) ∈ l.enumFrom n := by
  intro l
  induction l with
  | nil => intro n j a h; exact absurd h (by simp)
  | cons x xs ih =>
    intro n j a h
    cases j with
    | zero =>
      simp only [List.getElem?_cons_zero] at h
      injection h with h
      subst h
      simp [List.enumFrom]
    | succ j1 =>
      simp only [List.getElem?_cons_succ] at h
      have := ih (n + 1) j1 a h
      have harith : n + (j1 + 1) = (n + 1) + j1 := by omega
      rw [harith]
      simp [List.enumFrom]
      right
      exact this

theorem getElem_of_mem_enumFrom {α : Type} :
    ∀ (l : List α) (n : Nat) (p : Nat × α), p ∈ l.enumFrom n →
      n ≤ p.1 ∧ l[p.1 - n]? = some p.2 := by
  intro l
  induction l with
  | nil => intro n p h; exact absurd h (by simp [List.enumFrom])
  | cons x xs ih =>
    intro n p h
    simp only [List.enumFrom, List.mem_cons] at h
    rcases h with h | h
    · subst h
      simp
    · rcases ih (n + 1) p h with ⟨h1, h2⟩
      refine ⟨by omega, ?_⟩
      have harith : p.1 - n = (p.1 - (n + 1)) + 1 := by omega
      rw [harith, List.getElem?_cons_succ]
      exact h2

/-- The successes of a settled outcome list, in order. -/
def successesOf {M E R : Type} (outs : List (PubOutcome M E R)) : List R :=
  outs.filterMap fun o =>
    match o with
    | .success r _ _ => some r
    | .failure _ _ _ => none

/-- The failures of a settled outcome list, in order, as FailedPublish
entries. -/
def failuresOf {M E R : Type} (outs : List (PubOutcome M E R)) : List (FailedPublish M E) :=
  outs.filterMap fun o =>
    match o with
    | .success _ _ _ => none
    | .failure e m i => some ⟨m, e, i⟩

/-- All settled outcomes of a chunk list, chunk by chunk, starting at the
given chunk index. -/
def allOutcomesFrom {M E R : Type} (pub : M → Except E R) :
    Nat → List (List M) → List (PubOutcome M E R)
  | _, [] => []
  | chunkIndex, chunk :: rest =>
    chunkOutcomes pub chunkIndex chunk ++ allOutcomesFrom pub (chunkIndex + 1) rest

/-- An outcome is valid when its message sits at its recorded index in the
original input and its payload matches the publish result for it. -/
def OutcomeValid {M E R : Type} (pub : M → Except E R) (messages : List M) :
    PubOutcome M E R → Prop
  | .success r m i => messages[i]? = some m ∧ pub m = .ok r
  | .failure e m i => messages[i]? = some m ∧ pub m = .error e

theorem chunkOutcomes_length {M E R : Type} (pub : M → Except E R) (chunkIndex : Nat)
    (chunk : List M) : (chunkOutcomes pub chunkIndex chunk).length = chunk.length := by
  simp [chunkOutcomes, List.enum_length]

theorem chunkOutcomes_valid {M E R : Type} (pub : M → Except E R) (messages : List M)
    (chunkIndex : Nat) (chunk : List M)
    (hchunk : (chunks10 messages)[chunkIndex]? = some chunk) :
    ∀ o ∈ chunkOutcomes pub chunkIndex chunk, OutcomeValid pub messages o := by
  intro o ho
  rcases List.mem_map.mp ho with ⟨p, hp, rfl⟩
  have hidx : chunk[p.1]? = some p.2 := by
    have := getElem_of_mem_enumFrom chunk 0 p (by simpa [List.enum] using hp)
    simpa using this.2
  have hmsg : messages[chunkIndex * 10 + p.1]? = some p.2 :=
    chunks10_getElem chunkIndex messages chunk hchunk p.1 p.2 hidx
  cases hpub : pub p.2 <;> simp [hpub, OutcomeValid, hmsg]

theorem chunkOutcomes_failure_mem {M E R : Type} (pub : M → Except E R) (chunkIndex : Nat)
    (chunk : List M) (j : Nat) (m : M) (e : E)
    (hj : chunk[j]? = some m) (hp : pub m = .error e) :
    PubOutcome.failure e m (chunkIndex * 10 + j) ∈ chunkOutcomes pub chunkIndex chunk := by
  have hmem : ((j, m) : Nat × M) ∈ chunk.enum := by
    have := mem_enumFrom_of_getElem chunk 0 j m hj
    simpa [List.enum] using this
  refine List.mem_map.mpr ⟨(j, m), hmem, ?_⟩
  simp [hp]

theorem processResults_true {M E R : Type} :
    ∀ (outs : List (PubOutcome M E R)) (successful : List R) (failed : List (FailedPublish M E)),
      processResults true outs successful failed =
        (successful ++ successesOf outs, failed ++ failuresOf outs, false) := by
  intro outs
  induction outs with
  | nil => intro s f; simp [processResults, successesOf, failuresOf]
  | cons o rest ih =>
    intro s f
    cases o with
    | success r m i =>
      simp [processResults, ih, successesOf, failuresOf, List.filterMap_cons]
    | failure e m i =>
      simp [processResults, ih, successesOf, failuresOf, List.filterMap_cons]

theorem processResults_length_le {M E R : Type} (continueOnError : Bool) :
    ∀ (outs : List (PubOutcome M E R)) (successful : List R) (failed : List (FailedPublish M E)),
      (processResults continueOnError outs successful failed).1.length +
        (processResults continueOnError outs successful failed).2.1.length ≤
      successful.length + failed.length + outs.length := by
  intro outs
  induction outs with
  | nil => intro s f; simp [processResults]
  | cons o rest ih =>
    intro s f
    cases o with
    | success r m i =>
      have h1 := ih (s ++ [r]) f
      simp only [processResults]
      simp only [List.length_append, List.length_cons, List.length_nil] at h1 ⊢
      omega
    | failure e m i =>
      cases continueOnError with
      | true =>
        have h1 := ih s (f ++ [⟨m, e, i⟩])
        simp only [processResults, if_true]
        simp only [List.length_append, List.length_cons, List.length_nil] at h1 ⊢
        omega
      | false =>
        simp only [processResults]
        simp only [List.length_cons]
        rw [if_neg (by simp)]
        simp only [List.length_append, List.length_cons, List.length_nil]
        omega

theorem processResults_valid {M E R : Type} (continueOnError : Bool)
    (Good : FailedPublish M E → Prop) :
    ∀ (outs : List (PubOutcome M E R)) (successful : List R) (failed : List (FailedPublish M E)),
      (∀ f ∈ failed, Good f) →
      (∀ o ∈ outs, ∀ (e : E) (m : M) (i : Nat), o = .failure e m i → Good ⟨m, e, i⟩) →
      ∀ f ∈ (processResults continueOnError outs successful failed).2.1, Good f := by
  intro outs
  induction outs with
  | nil => intro s f hf _; simpa [processResults] using hf
  | cons o rest ih =>
    intro s f hf houts
    cases o with
    | success r m i =>
      exact ih (s ++ [r]) f hf (fun o ho => houts o (List.mem_cons.mpr (Or.inr ho)))
    | failure e m i =>
      have hgood : Good ⟨m, e, i⟩ :=
        houts (.failure e m i) (List.mem_cons.mpr (Or.inl rfl)) e m i rfl
      have hf1 : ∀ x ∈ f ++ [(⟨m, e, i⟩ : FailedPublish M E)], Good x := by
        intro x hx
        rcases List.mem_append.mp hx with hx | hx
        · exact hf x hx
        · rw [List.mem_singleton.mp hx]; exact hgood
      cases continueOnError with
      | true =>
        exact ih s (f ++ [⟨m, e, i⟩]) hf1 (fun o ho => houts o (List.mem_cons.mpr (Or.inr ho)))
      | false =>
        simpa [processResults] using hf1

theorem runChunks_true {M E R : Type} (pub : M → Except E R) :
    ∀ (chunks : List (List M)) (chunkIndex : Nat) (successful : List R)
      (failed : List (FailedPublish M E)),
      runChunks pub true chunks chunkIndex successful failed =
        (successful ++ successesOf (allOutcomesFrom pub chunkIndex chunks),
         failed ++ failuresOf (allOutcomesFrom pub chunkIndex chunks)) := by
  intro chunks
  induction chunks with
  | nil => intro c s f; simp [runChunks, allOutcomesFrom, successesOf, failuresOf]
  | cons chunk rest ih =>
    intro c s f
    simp only [runChunks, processResults_true]
    rw [ih (c + 1)]
    simp [allOutcomesFrom, successesOf, failuresOf, List.filterMap_append, List.append_assoc]

theorem runChunks_length_le {M E R : Type} (pub : M → Except E R) (continueOnError : Bool) :
    ∀ (chunks : List (List M)) (chunkIndex : Nat) (successful : List R)
      (failed : List (FailedPublish M E)),
      (runChunks pub continueOnError chunks chunkIndex successful failed).1.length +
        (runChunks pub continueOnError chunks chunkIndex successful failed).2.length ≤
      successful.length + failed.length + (chunks.map List.length).sum := by
  intro chunks
  induction chunks with
  | nil => intro c s f; simp [runChunks]
  | cons chunk rest ih =>
    intro c s f
    have hp := processResults_length_le continueOnError
      (chunkOutcomes pub c chunk) s f
    rw [chunkOutcomes_length] at hp
    simp only [runChunks]
    rcases hres : processResults continueOnError (chunkOutcomes pub c chunk) s f with
      ⟨s1, f1, stopped⟩
    rw [hres] at hp
    simp only at hp
    cases stopped with
    | true =>
      simp only [List.map_cons, List.sum_cons]
      omega
    | false =>
      have h2 := ih (c + 1) s1 f1
      simp only [List.map_cons, List.sum_cons]
      omega

theorem runChunks_valid {M E R : Type} (pub : M → Except E R) (continueOnError : Bool)
    (Good : FailedPublish M E → Prop) :
    ∀ (chunks : List (List M)) (chunkIndex : Nat) (successful : List R)
      (failed : List (FailedPublish M E)),
      (∀ f ∈ failed, Good f) →
      (∀ (c : Nat) (chunk : List M), chunks[c]? = some chunk →
        ∀ o ∈ chunkOutcomes pub (chunkIndex + c) chunk,
          ∀ (e : E) (m : M) (i : Nat), o = .failure e m i → Good ⟨m, e, i⟩) →
      ∀ f ∈ (runChunks pub continueOnError chunks chunkIndex successful failed).2, Good f := by
  intro chunks
  induction chunks with
  | nil => intro c s f hf _; simpa [runChunks] using hf
  | cons chunk rest ih =>
    intro c s f hf hchunks
    have hhead : ∀ o ∈ chunkOutcomes pub c chunk,
        ∀ (e : E) (m : M) (i : Nat), o = .failure e m i → Good ⟨m, e, i⟩ := by
      have := hchunks 0 chunk (by simp)
      simpa using this
    have hproc := processResults_valid continueOnError Good
      (chunkOutcomes pub c chunk) s f hf hhead
    simp only [runChunks]
    rcases hres : processResults continueOnError (chunkOutcomes pub c chunk) s f with
      ⟨s1, f1, stopped⟩
    rw [hres] at hproc
    simp only at hproc
    cases stopped with
    | true => exact hproc
    | false =>
      refine ih (c + 1) s1 f1 hproc ?_
      intro c1 chunk1 hc1
      have := hchunks (c1 + 1) chunk1 (by simpa using hc1)
      have harith : c + (c1 + 1) = c + 1 + c1 := by omega
      rw [harith] at this
      exact this

theorem allOutcomesFrom_length {M E R : Type} (pub : M → Except E R) :
    ∀ (chunks : List (List M)) (chunkIndex : Nat),
      (allOutcomesFrom pub chunkIndex chunks).length = (chunks.map List.length).sum := by
  intro chunks
  induction chunks with
  | nil => intro c; rfl
  | cons chunk rest ih =>
    intro c
    simp [allOutcomesFrom, List.length_append, chunkOutcomes_length, ih]

theorem mem_allOutcomesFrom {M E R : Type} (pub : M → Except E R) :
    ∀ (chunks : List (List M)) (chunkIndex c : Nat) (chunk : List M)
      (o : PubOutcome M E R),
      chunks[c]? = some chunk → o ∈ chunkOutcomes pub (chunkIndex + c) chunk →
      o ∈ allOutcomesFrom pub chunkIndex chunks := by
  intro chunks
  induction chunks with
  | nil => intro cI c chunk o h _; exact absurd h (by simp)
  | cons chunk0 rest ih =>
    intro cI c chunk o h ho
    cases c with
    | zero =>
      simp only [List.getElem?_cons_zero] at h
      injection h with h
      subst h
      simp only [allOutcomesFrom, List.mem_append]
      exact Or.inl (by simpa using ho)
    | succ c1 =>
      simp only [List.getElem?_cons_succ] at h
      have harith : cI + (c1 + 1) = (cI + 1) + c1 := by omega
      rw [harith] at ho
      exact List.mem_append.mpr (Or.inr (ih (cI + 1) c1 chunk o h ho))

theorem successes_failures_length {M E R : Type} :
    ∀ (outs : List (PubOutcome M E R)),
      (successesOf outs).length + (failuresOf outs).length = outs.length := by
  intro outs
  induction outs with
  | nil => rfl
  | cons o rest ih =>
    cases o <;> simp [successesOf, failuresOf, List.filterMap_cons] at ih ⊢ <;> omega

theorem chunks10_length_sum_aux {M : Type} :
    ∀ (n : Nat) (l : List M), l.length ≤ n →
      ((chunks10 l).map List.length).sum = l.length := by
  intro n
  induction n with
  | zero =>
    intro l h
    have : l = [] := List.length_eq_zero.mp (Nat.le_zero.mp h)
    subst this
    rfl
  | succ k ih =>
    intro l h
    cases l with
    | nil => rfl
    | cons m rest =>
      rw [chunks10_cons]
      simp only [List.map_cons, List.sum_cons]
      rw [ih (rest.drop 9) (by
        have h2 : rest.length ≤ k := by simpa using h
        simp only [List.length_drop]
        omega)]
      simp only [List.length_cons, List.length_take, List.length_drop]
      omega

theorem chunks10_length_sum {M : Type} (l : List M) :
    ((chunks10 l).map List.length).sum = l.length :=
  chunks10_length_sum_aux l.length l (le_refl _)

/-- C9: with continueOnError true the batch result conserves counts,
successCount + failureCount = totalCount = input length; with
continueOnError false totalCount still equals the input length and the
processed counts can only fall short of it. -/
theorem batch_counts_conservation :
    (∀ (M E R : Type) (pub : M → Except E R) (messages : List M),
      (batchDispatch pub messages true).successCount +
        (batchDispatch pub messages true).failureCount =
        (batchDispatch pub messages true).totalCount ∧
      (batchDispatch pub messages true).totalCount = messages.length) ∧
    (∀ (M E R : Type) (pub : M → Except E R) (messages : List M),
      (batchDispatch pub messages false).totalCount = messages.length ∧
      (batchDispatch pub messages false).successCount +
        (batchDispatch pub messages false).failureCount ≤
        (batchDispatch pub messages false).totalCount) := by
  constructor
  · intro M E R pub messages
    constructor
    · simp only [batchDispatch]
      rw [runChunks_true]
      simp only [List.nil_append]
      have h1 := successes_failures_length (allOutcomesFrom pub 0 (chunks10 messages))
      have h2 := allOutcomesFrom_length pub (chunks10 messages) 0
      have h3 := chunks10_length_sum messages
      omega
    · rfl
  · intro M E R pub messages
    constructor
    · rfl
    · simp only [batchDispatch]
      have h1 := runChunks_length_le pub false (chunks10 messages) 0 [] []
      have h3 := chunks10_length_sum messages
      simp only [List.length_nil] at h1
      omega

/-- C8: every FailedPublish entry of a batch result records the zero-based
position of its message in the original input array, and its error is the
publish outcome for that message, for either continueOnError policy. -/
theorem failed_index_is_original_position :
    ∀ (M E R : Type) (pub : M → Except E R) (messages : List M) (continueOnError : Bool),
      ∀ f ∈ (batchDispatch pub messages continueOnError).failed,
        messages[f.index]? = some f.message ∧ pub f.message = .error f.error := by
  intro M E R pub messages continueOnError f hf
  simp only [batchDispatch] at hf
  refine runChunks_valid pub continueOnError
    (fun g => messages[g.index]? = some g.message ∧ pub g.message = .error g.error)
    (chunks10 messages) 0 [] [] (by simp) ?_ f hf
  intro c chunk hc o ho e m i hoe
  have hvalid := chunkOutcomes_valid pub messages c chunk hc o (by simpa using ho)
  subst hoe
  simpa [OutcomeValid] using hvalid

/-- Demo per-message publish for the dispatcher scenarios: the message with
value 1 fails, everything else succeeds. -/
def pubFailAt1 : Nat → Except String String :=
  fun n => if n = 1 then .error ("boom") else .ok ("fine")

/-- Demo per-message publish where every message fails. -/
def pubAllFail : Nat → Except String String :=
  fun n => .error ("boom" ++ toString n)

/-- C4 counterexample: with continueOnError false and two failing messages,
the second per-message failure is not captured as a FailedPublish entry in
the returned result (the aggregation loop returns at the first failure), so
the universally quantified capture claim fails for that batch options
value. -/
theorem batch_later_failure_not_captured :
    pubAllFail 0 = .error ("boom0") ∧
    pubAllFail 1 = .error ("boom1") ∧
    (batchDispatch pubAllFail [0, 1] false).failed.map (fun f => f.index) = [0] ∧
    (batchDispatch pubAllFail [0, 1] false).failed.length = 1 := by
  refine ⟨rfl, rfl, ?_, ?_⟩ <;> decide

/-- C4 (amended): publishBatch never throws once configured (for SNS, once
the upfront topic resolution succeeds): it returns a BatchPublishResult,
and with continueOnError true (the default) every per-message failure,
destination-resolution failures inside publish included, is captured as a
FailedPublish entry carrying the original message, error and index; with
continueOnError false failures are captured only up to and including the
first one, but the partial result is still returned rather than thrown. -/
theorem batch_failures_are_data :
    (∀ (M : Type) (be : SqsBackend M) (st : SqsPublisherState M)
        (cfg : SqsPublisherConfig M) (messages : List M)
        (options : Option BatchPublishOptions),
      st.config = some cfg →
      isOkE (sqsPublishBatch be st messages options) = true) ∧
    (∀ (M : Type) (be : SnsBackend) (cached : Option String) (destination arn : String)
        (pub : M → Except PubError PublishResult) (messages : List M)
        (options : Option BatchPublishOptions),
      (snsResolveTopicArn be cached destination).result = .ok arn →
      isOkE (snsPublishBatch be true cached destination pub messages options) = true) ∧
    (∀ (M E R : Type) (pub : M → Except E R) (messages : List M) (i : Nat) (m : M) (e : E),
      messages[i]? = some m → pub m = .error e →
      (⟨m, e, i⟩ : FailedPublish M E) ∈ (batchDispatch pub messages true).failed) := by
  refine ⟨?_, ?_, ?_⟩
  · intro M be st cfg messages options hc
    unfold sqsPublishBatch
    rw [hc]
    rfl
  · intro M be cached destination arn pub messages options hres
    simp [snsPublishBatch, hres, isOkE]
  · intro M E R pub messages i m e hmi hpm
    have hi : i < messages.length := (List.getElem?_eq_some.mp hmi).1
    have hj : i % 10 < 10 := Nat.mod_lt _ (by omega)
    have harith : (i / 10) * 10 + i % 10 = i := by omega
    rcases chunks10_index_mem (i / 10) messages (i % 10) m hj
      (by rw [harith]; exact hmi) with ⟨chunk, hc, hcj⟩
    have hmem := chunkOutcomes_failure_mem pub (i / 10) chunk (i % 10) m e hcj hpm
    rw [harith] at hmem
    have hmemA := mem_allOutcomesFrom pub (chunks10 messages) 0 (i / 10) chunk
      (.failure e m i) hc (by simpa using hmem)
    simp only [batchDispatch]
    rw [runChunks_true]
    simp only [List.nil_append]
    exact List.mem_filterMap.mpr ⟨.failure e m i, hmemA, rfl⟩

theorem batch_failures_are_data_witness :
    stSerialFailDemo.config = some cfgSerialFailDemo ∧
    isOkE (sqsPublishBatch beDemo stSerialFailDemo [(), ()] none) = true ∧
    isOkE (snsPublishBatch snsBeDemo true none ("orders-topic")
      (fun _ : Unit => Except.error (PubError.jsErr ("down"))) [(), ()] none) = true ∧
    ([0, 1, 2][(1 : Nat)]? = some 1 ∧ pubFailAt1 1 = .error ("boom")) ∧
    (⟨1, "boom", 1⟩ : FailedPublish Nat String) ∈
      (batchDispatch pubFailAt1 [0, 1, 2] true).failed := by
  refine ⟨rfl, ?_, ?_, ⟨by decide, rfl⟩, ?_⟩
  · exact batch_failures_are_data.1 Unit beDemo stSerialFailDemo cfgSerialFailDemo
      [(), ()] none rfl
  · exact batch_failures_are_data.2.1 Unit snsBeDemo none ("orders-topic")
      ("arn:aws:sns:us-east-1:123:orders-topic")
      (fun _ => Except.error (PubError.jsErr ("down"))) [(), ()] none rfl
  · exact batch_failures_are_data.2.2 Nat String String pubFailAt1 [0, 1, 2] 1 1 ("boom")
      (by decide) rfl

theorem failed_index_is_original_position_witness :
    (⟨1, "boom", 1⟩ : FailedPublish Nat String) ∈
      (batchDispatch pubFailAt1 [0, 1, 2] true).failed ∧
    ([0, 1, 2][(1 : Nat)]? = some (1 : Nat) ∧ pubFailAt1 1 = .error ("boom")) :=
  ⟨by decide,
    failed_index_is_original_position Nat String String pubFailAt1 [0, 1, 2] true
      ⟨1, "boom", 1⟩ (by decide)⟩

/-- C1 counterexample: batch of 3 messages in one chunk, only the 2nd
fails, continueOnError false: the aggregation loop returns at the first
failed result before looking at the 3rd settled result, so the returned
counts are successCount 1 and failureCount 1, not successCount 2. -/
theorem stop_on_error_drops_later_results_in_chunk :
    pubFailAt1 0 = .ok ("fine") ∧
    pubFailAt1 1 = .error ("boom") ∧
    pubFailAt1 2 = .ok ("fine") ∧
    (batchDispatch pubFailAt1 [0, 1, 2] false).successCount = 1 ∧
    ¬ ((batchDispatch pubFailAt1 [0, 1, 2] false).successCount = 2) ∧
    (batchDispatch pubFailAt1 [0, 1, 2] false).failureCount = 1 := by
  refine ⟨rfl, rfl, rfl, ?_, ?_, ?_⟩ <;> decide

/-- C1 (amended): with continueOnError false, a batch of three messages in
a single chunk whose 2nd message fails has all three messages awaited
(their outcomes are all settled before aggregation), but the returned
partial result counts only the results up to and including the first
failure in chunk order: successful holds the 1st result only, failed holds
the 2nd failure at index 1, totalCount is 3, successCount is 1 and
failureCount is 1. -/
theorem stop_on_error_counts_to_first_failure {M E R : Type} (pub : M → Except E R)
    (m0 m1 m2 : M) (e : E) (r0 r2 : R)
    (h0 : pub m0 = .ok r0) (h1 : pub m1 = .error e) (h2 : pub m2 = .ok r2) :
    batchDispatch pub [m0, m1, m2] false =
      { successful := [r0], failed := [⟨m1, e, 1⟩], totalCount := 3,
        successCount := 1, failureCount := 1 } := by
  have hchunks : chunks10 [m0, m1, m2] = [[m0, m1, m2]] := rfl
  simp [batchDispatch, hchunks, runChunks, chunkOutcomes, List.enum, List.enumFrom,
    processResults, h0, h1, h2]

theorem stop_on_error_counts_to_first_failure_witness :
    (pubFailAt1 0 = .ok ("fine") ∧ pubFailAt1 1 = .error ("boom") ∧
      pubFailAt1 2 = .ok ("fine")) ∧
    batchDispatch pubFailAt1 [0, 1, 2] false =
      { successful := ["fine"], failed := [⟨1, "boom", 1⟩], totalCount := 3,
        successCount := 1, failureCount := 1 } :=
  ⟨⟨rfl, rfl, rfl⟩,
    stop_on_error_counts_to_first_failure pubFailAt1 0 1 2 ("boom") ("fine") ("fine")
      rfl rfl rfl⟩
